import Mathlib

/-!
Verification of the Liftoff baseline-compiler code-emission core for the
RISC-V target (the `LiftoffAssembler` specialization in
`liftoff-assembler-riscv.h`), as a shallow embedding in Lean.

Machine integers are modelled as `Nat`/`Int` with explicit reductions
modulo `2 ^ w` where overflow matters; floating-point lanes are modelled
by their 32-bit bit patterns.  The vector (RVV) instructions consumed by
the lowering methods are given lane-wise semantics following the vector
ISA specification the source targets; stack memory is a byte-addressed
word store.
-/

namespace Liftoff

/-! ## Target constants (RISCV64) -/

/-- Constant `kSystemPointerSize` on RISCV64: 8 bytes. -/
def kSystemPointerSize : Int := 8

/-- Constant `KB`: 1024 bytes. -/
def KB : Int := 1024

/-! ## C1: `PatchPrepareStackFrame` frame-size threshold -/

/-- Result of patching the prologue placeholder in `PatchPrepareStackFrame`:
either a single direct stack-pointer decrement (small frame), or a jump to
out-of-line code that performs a stack-limit check (emitted iff
`frame_size < v8_flags.stack_size * 1024`) before allocating the frame. -/
inductive ProloguePatch
  | smallFrame (spDecrement : Int)
  | largeFrame (hasStackCheck : Bool) (spDecrement : Int)
deriving DecidableEq, Repr

/-- Shallow embedding of `LiftoffAssembler::PatchPrepareStackFrame`:
`frame_size = GetTotalFrameSize() - 2 * kSystemPointerSize`; when
`frame_size < 4 * KB` the placeholder is patched with
`AddWord(sp, sp, Operand(-frame_size))`; otherwise it is patched with a jump
to out-of-line code that checks the stack limit (the check is emitted iff
`frame_size < v8_flags.stack_size * 1024`) before allocating `frame_size`. -/
def PatchPrepareStackFrame (totalFrameSize stackSizeFlag : Int) : ProloguePatch :=
  let frame_size := totalFrameSize - 2 * kSystemPointerSize
  if frame_size < 4 * KB then
    ProloguePatch.smallFrame frame_size
  else
    ProloguePatch.largeFrame (decide (frame_size < stackSizeFlag * 1024)) frame_size

/-! ## C6: `ConditionToConditionCmpFPU` supported comparison kinds -/

/-- Portable comparison kinds (`LiftoffCondition`). -/
inductive LiftoffCondition
  | kEqual
  | kUnequal
  | kSignedLessThan
  | kSignedLessEqual
  | kSignedGreaterThan
  | kSignedGreaterEqual
  | kUnsignedLessThan
  | kUnsignedLessEqual
  | kUnsignedGreaterThan
  | kUnsignedGreaterEqual
deriving DecidableEq, Repr

/-- Target floating-point compare condition codes (`FPUCondition`). -/
inductive FPUCondition
  | EQ
  | NE
  | LT
  | GE
  | LE
  | GT
deriving DecidableEq, Repr

/-- Shallow embedding of `ConditionToConditionCmpFPU`: the six supported kinds
map to a condition code; every other kind falls through the `default:` branch
to `UNREACHABLE()`, modelled as `none`. -/
def ConditionToConditionCmpFPU : LiftoffCondition → Option FPUCondition
  | .kEqual => some .EQ
  | .kUnequal => some .NE
  | .kUnsignedLessThan => some .LT
  | .kUnsignedGreaterEqual => some .GE
  | .kUnsignedLessEqual => some .LE
  | .kUnsignedGreaterThan => some .GT
  | _ => none

/-! ## C7: vector-configuration discipline of the SIMD lowering methods -/

/-- One emitted instruction, classified for the vector-configuration
discipline: a configuration-register write (`VU.set`), a vector instruction,
or a scalar instruction. -/
inductive TraceInstr
  | vset (cfg : String)
  | vop (mnemonic : String)
  | scalar (mnemonic : String)
deriving DecidableEq, Repr

/-- Instruction trace of `emit_i8x16_splat`: `VU.set(kScratchReg, E8, m1)`
followed by `vmv_vx(dst, src)`. -/
def emit_i8x16_splat_trace : List TraceInstr :=
  [.vset ("E8 m1"), .vop ("vmv_vx")]

/-- Instruction trace of `emit_i8x16_popcnt`: a `VU.set(kScratchReg, E8, m1)`
precedes every vector instruction of the loop. -/
def emit_i8x16_popcnt_trace : List TraceInstr :=
  [.vset ("E8 m1"), .vop ("vmv_vv"), .vop ("vmv_vv"), .vop ("vmsne_vv"),
   .vop ("vadd_vi"), .vop ("vadd_vi"), .vop ("vand_vv"), .vop ("vfirst_m"),
   .scalar ("bgez")]

/-- Instruction trace of `emit_s128_set_if_nan` for `lane_kind == kF32`: the
method starts with the vector reduction `vfredmax_vs` and contains no
`VU.set` at all. -/
def emit_s128_set_if_nan_trace_f32 : List TraceInstr :=
  [.vop ("vfredmax_vs"), .vop ("vfmv_fs"), .scalar ("feq_s"),
   .scalar ("not_"), .scalar ("Sw")]

/-- Instruction trace of `emit_i32x4_shli` for a shift immediate with
`is_uint5(rhs % 32)`: the method emits `vsll_vi` with no `VU.set`. -/
def emit_i32x4_shli_trace_uint5 : List TraceInstr :=
  [.vop ("vsll_vi")]

/-- Discipline required by the spec's data model: the first vector instruction
of a method's trace, if any, must be preceded (within the same method) by a
vector-configuration write. -/
def setsVectorConfigBeforeFirstVectorInstr : List TraceInstr → Bool
  | [] => true
  | .vset _ :: _ => true
  | .vop _ :: _ => false
  | .scalar _ :: rest => setsVectorConfigBeforeFirstVectorInstr rest

/-! ## C4: `emit_f32x4_min` / `emit_f32x4_max` NaN semantics -/

/-- Constant `kNaN` of `emit_f32x4_min`/`emit_f32x4_max`: the canonical quiet
NaN bit pattern for a 32-bit float. -/
def kNaN32 : Nat := 0x7FC00000

/-- NaN test on a 32-bit float bit pattern: exponent field all ones and
nonzero mantissa. -/
def isNaN32 (x : Nat) : Bool :=
  (x >>> 23) &&& 0xFF == 0xFF && x &&& 0x7FFFFF != 0

/-- Total-order key of a 32-bit float bit pattern: strictly increasing in the
IEEE order on non-NaN values, with `-0.0` strictly below `+0.0` (the tie the
RISC-V `fmin`/`fmax` instructions resolve in favour of `-0.0` respectively
`+0.0`). -/
def f32Key (x : Nat) : Nat :=
  if x < 2 ^ 31 then x + 2 ^ 31 else 2 ^ 32 - 1 - x

/-- Lane semantics of `vmfeq.vv` at `E32`: IEEE equality, so any NaN operand
compares unequal and zeros of both signs compare equal; the result is the
lane's mask bit. -/
def vmfeq32 (a b : Nat) : Nat :=
  if isNaN32 a || isNaN32 b then 0
  else if a == b || (a &&& 0x7FFFFFFF == 0 && b &&& 0x7FFFFFFF == 0) then 1
  else 0

/-- Lane semantics of `vfmin.vv` at `E32` (IEEE 754-2019 minimumNumber as
implemented by RISC-V `fmin`): both operands NaN gives the canonical NaN, one
NaN gives the other operand, otherwise the smaller in the `f32Key` order. -/
def vfmin32 (a b : Nat) : Nat :=
  if isNaN32 a && isNaN32 b then kNaN32
  else if isNaN32 a then b
  else if isNaN32 b then a
  else if f32Key a ≤ f32Key b then a
  else b

/-- Lane semantics of `vfmax.vv` at `E32` (IEEE 754-2019 maximumNumber as
implemented by RISC-V `fmax`). -/
def vfmax32 (a b : Nat) : Nat :=
  if isNaN32 a && isNaN32 b then kNaN32
  else if isNaN32 a then b
  else if isNaN32 b then a
  else if f32Key b ≤ f32Key a then a
  else b

/-- Shallow embedding of `emit_f32x4_min`, lane-wise over the four 32-bit
lanes: `vmfeq_vv(v0, lhs, lhs)`, `vmfeq_vv(scratch, rhs, rhs)`,
`vand_vv(v0, v0, scratch)`, splat `kNaN` into the scratch register, then the
masked `vfmin_vv(scratch, rhs, lhs, Mask)` (masked-off lanes keep the splatted
NaN), finally `vmv_vv(dst, scratch)`. -/
def emit_f32x4_min (lhs rhs : Fin 4 → Nat) : Fin 4 → Nat :=
  let v0 : Fin 4 → Nat := fun i => vmfeq32 (lhs i) (lhs i) &&& vmfeq32 (rhs i) (rhs i)
  let scratch : Fin 4 → Nat := fun _ => kNaN32
  fun i => if v0 i = 1 then vfmin32 (rhs i) (lhs i) else scratch i

/-- Shallow embedding of `emit_f32x4_max`: identical to `emit_f32x4_min` with
the masked `vfmax_vv(scratch, rhs, lhs, Mask)` instead. -/
def emit_f32x4_max (lhs rhs : Fin 4 → Nat) : Fin 4 → Nat :=
  let v0 : Fin 4 → Nat := fun i => vmfeq32 (lhs i) (lhs i) &&& vmfeq32 (rhs i) (rhs i)
  let scratch : Fin 4 → Nat := fun _ => kNaN32
  fun i => if v0 i = 1 then vfmax32 (rhs i) (lhs i) else scratch i

/-- Following the spec's words, the IEEE minimum of two non-NaN 32-bit float
bit patterns, stated independently of the emitted sequence: the operand that
is smaller in the IEEE order (`-0.0` below `+0.0`). -/
def ieeeMin32 (a b : Nat) : Nat :=
  if f32Key a ≤ f32Key b then a else b

/-- Following the spec's words, the IEEE maximum of two non-NaN 32-bit float
bit patterns. -/
def ieeeMax32 (a b : Nat) : Nat :=
  if f32Key b ≤ f32Key a then a else b

/-- Concrete left operand used by the C4 witness: a NaN in lane 0, `1.0` in
lane 1, `-0.0` in lane 2 and a small denormal in lane 3. -/
def wF32Lhs : Fin 4 → Nat := ![0x7FC00001, 0x3F800000, 0x80000000, 5]

/-- Concrete right operand used by the C4 witness: a denormal in lane 0, a
negative signalling NaN in lane 1, `+0.0` in lane 2 and a denormal in
lane 3. -/
def wF32Rhs : Fin 4 → Nat := ![2, 0xFF800001, 0, 3]

theorem vmfeq32_self (x : Nat) : vmfeq32 x x = if isNaN32 x then 0 else 1 := by
  unfold vmfeq32
  cases h : isNaN32 x <;> simp [h]

theorem f32Key_inj {a b : Nat} (ha : a < 2 ^ 32) (hb : b < 2 ^ 32)
    (h : f32Key a = f32Key b) : a = b := by
  unfold f32Key at h
  split_ifs at h <;> omega

theorem vfmin32_eq_ieeeMin32 {a b : Nat} (ha : isNaN32 a = false)
    (hb : isNaN32 b = false) (ha32 : a < 2 ^ 32) (hb32 : b < 2 ^ 32) :
    vfmin32 b a = ieeeMin32 a b := by
  rcases le_or_lt (f32Key b) (f32Key a) with h1 | h1 <;>
    rcases le_or_lt (f32Key a) (f32Key b) with h2 | h2
  · have hEq : a = b := f32Key_inj ha32 hb32 (le_antisymm h2 h1)
    subst hEq
    simp [vfmin32, ieeeMin32, ha]
  · simp [vfmin32, ieeeMin32, ha, hb, h1, not_le.mpr h2]
  · simp [vfmin32, ieeeMin32, ha, hb, not_le.mpr h1, h2]
  · omega

theorem vfmax32_eq_ieeeMax32 {a b : Nat} (ha : isNaN32 a = false)
    (hb : isNaN32 b = false) (ha32 : a < 2 ^ 32) (hb32 : b < 2 ^ 32) :
    vfmax32 b a = ieeeMax32 a b := by
  rcases le_or_lt (f32Key b) (f32Key a) with h1 | h1 <;>
    rcases le_or_lt (f32Key a) (f32Key b) with h2 | h2
  · have hEq : a = b := f32Key_inj ha32 hb32 (le_antisymm h2 h1)
    subst hEq
    simp [vfmax32, ieeeMax32, ha]
  · simp [vfmax32, ieeeMax32, ha, hb, h1, not_le.mpr h2]
  · simp [vfmax32, ieeeMax32, ha, hb, not_le.mpr h1, h2]
  · omega

/-! ## C5: `emit_i8x16_rounding_average_u` / `emit_i16x8_rounding_average_u` -/

/-- Lane semantics of `vwaddu.vv` at `E8`: widening unsigned add of two 8-bit
lanes into a 16-bit result lane. -/
def vwaddu_vv8 (a b : Nat) : Nat := (a % 2 ^ 8 + b % 2 ^ 8) % 2 ^ 16

/-- Lane semantics of `vwaddu.wx` at `E8`: a 16-bit wide lane plus the
zero-extended 8-bit scalar, 16-bit result. -/
def vwaddu_wx8 (w x : Nat) : Nat := (w % 2 ^ 16 + x % 2 ^ 8) % 2 ^ 16

/-- Lane semantics of `vdivu.vx` at `E16`: unsigned divide; division by zero
yields all ones per the vector ISA. -/
def vdivu16 (x d : Nat) : Nat :=
  if d % 2 ^ 16 = 0 then 2 ^ 16 - 1 else x % 2 ^ 16 / (d % 2 ^ 16)

/-- Lane semantics of `vnclipu.vi` at `E8` with a zero shift (the rounding
mode is irrelevant for a zero shift): clip the 16-bit lane to 8 bits with
unsigned saturation. -/
def vnclipu16to8 (x : Nat) : Nat := min (x % 2 ^ 16) (2 ^ 8 - 1)

/-- Lane semantics of `vwaddu.vv` at `E16`: widening unsigned add of two
16-bit lanes into a 32-bit result lane. -/
def vwaddu_vv16 (a b : Nat) : Nat := (a % 2 ^ 16 + b % 2 ^ 16) % 2 ^ 32

/-- Lane semantics of `vwaddu.wx` at `E16`: a 32-bit wide lane plus the
zero-extended 16-bit scalar, 32-bit result. -/
def vwaddu_wx16 (w x : Nat) : Nat := (w % 2 ^ 32 + x % 2 ^ 16) % 2 ^ 32

/-- Lane semantics of `vdivu.vx` at `E32`. -/
def vdivu32 (x d : Nat) : Nat :=
  if d % 2 ^ 32 = 0 then 2 ^ 32 - 1 else x % 2 ^ 32 / (d % 2 ^ 32)

/-- Lane semantics of `vnclipu.vi` at `E16` with a zero shift. -/
def vnclipu32to16 (x : Nat) : Nat := min (x % 2 ^ 32) (2 ^ 16 - 1)

/-- Shallow embedding of `emit_i8x16_rounding_average_u`, lane-wise: widen
both operands and add (`vwaddu_vv`), add the rounding constant 1
(`vwaddu_wx` with `kScratchReg = 1`), divide by 2 in the widened width
(`vdivu_vx` at `E16 m2` with `kScratchReg = 2`), then narrow back with
`vnclipu_vi(dst, ..., 0)` at `E8 m1`. -/
def emit_i8x16_rounding_average_u (lhs rhs : Fin 16 → Nat) : Fin 16 → Nat :=
  let scratch := fun i => vwaddu_vv8 (lhs i) (rhs i)
  let scratch3 := fun i => vwaddu_wx8 (scratch i) 1
  let scratch3' := fun i => vdivu16 (scratch3 i) 2
  fun i => vnclipu16to8 (scratch3' i)

/-- Shallow embedding of `emit_i16x8_rounding_average_u`, lane-wise, with the
same structure at element width 16. -/
def emit_i16x8_rounding_average_u (lhs rhs : Fin 8 → Nat) : Fin 8 → Nat :=
  let scratch := fun i => vwaddu_vv16 (lhs i) (rhs i)
  let scratch3 := fun i => vwaddu_wx16 (scratch i) 1
  let scratch3' := fun i => vdivu32 (scratch3 i) 2
  fun i => vnclipu32to16 (scratch3' i)

/-! ## C8: `emit_i32x4_replace_lane` / `emit_i32x4_extract_lane` -/

/-- Lane semantics of `vslidedown.vi` at `E32` over the four 32-bit lanes:
lane `i` receives lane `i + n`; lanes slid in from past the end read zero
(only lane 0 is consumed afterwards). -/
def vslidedown4 (v : Fin 4 → Nat) (n : Nat) : Fin 4 → Nat :=
  fun i => if h : i.val + n < 4 then v ⟨i.val + n, h⟩ else 0

/-- Shallow embedding of `emit_i32x4_replace_lane`:
`li(kScratchReg, 1 << imm_lane_idx)`, `vmv_sx(v0, kScratchReg)` to build the
one-hot mask, then `vmerge_vx(dst, src2, src1)` at `E32`: lanes whose mask
bit is set take the scalar (its low 32 bits), the others keep `src1`. -/
def emit_i32x4_replace_lane (src1 : Fin 4 → Nat) (src2 : Nat) (idx : Fin 4) :
    Fin 4 → Nat :=
  let mask : Nat := 1 <<< idx.val
  fun i => if (mask >>> i.val) &&& 1 = 1 then src2 % 2 ^ 32 else src1 i

/-- Shallow embedding of `emit_i32x4_extract_lane`:
`vslidedown_vi(kSimd128ScratchReg, lhs, imm_lane_idx)` at `E32`, then
`vmv_xs(dst, kSimd128ScratchReg)` moves lane 0 out. -/
def emit_i32x4_extract_lane (lhs : Fin 4 → Nat) (idx : Fin 4) : Nat :=
  vslidedown4 lhs idx.val 0

/-! ## C10: 8-bit-lane register shifts mask the count -/

/-- Semantics of `andi(rd, rs, imm)`: bitwise and with the immediate. -/
def andi (x imm : Nat) : Nat := x &&& imm

/-- Lane semantics of `vsll.vx` at `E8`: logical left shift of the 8-bit lane
by the scalar count, which the ISA takes modulo the element width. -/
def vsll8 (x amt : Nat) : Nat := (x % 2 ^ 8 <<< (amt % 8)) % 2 ^ 8

/-- Lane semantics of `vsrl.vx` at `E8`: logical right shift. -/
def vsrl8 (x amt : Nat) : Nat := x % 2 ^ 8 >>> (amt % 8)

/-- Lane semantics of `vsra.vx` at `E8`: arithmetic right shift of the 8-bit
lane (sign-extended from bit 7), reduced back to its 8-bit pattern. -/
def vsra8 (x amt : Nat) : Nat :=
  ((((x % 2 ^ 8 : Nat) : Int) -
      (if 2 ^ 7 ≤ x % 2 ^ 8 then 2 ^ 8 else 0)).fdiv (2 ^ (amt % 8)) % 2 ^ 8).toNat

/-- Shallow embedding of `emit_i8x16_shl` with a register shift count:
`VU.set(kScratchReg, E8, m1)`, then `andi(rhs.gp(), rhs.gp(), 8 - 1)` —
overwriting the caller's count register in place — then
`vsll_vx(dst, lhs, rhs.gp())`.  Returns the destination lanes together with
the final value of the count register. -/
def emit_i8x16_shl (lhs : Fin 16 → Nat) (rhs : Nat) : (Fin 16 → Nat) × Nat :=
  let r := andi rhs (8 - 1)
  (fun i => vsll8 (lhs i) r, r)

/-- Shallow embedding of `emit_i8x16_shr_s` with a register shift count. -/
def emit_i8x16_shr_s (lhs : Fin 16 → Nat) (rhs : Nat) : (Fin 16 → Nat) × Nat :=
  let r := andi rhs (8 - 1)
  (fun i => vsra8 (lhs i) r, r)

/-- Shallow embedding of `emit_i8x16_shr_u` with a register shift count. -/
def emit_i8x16_shr_u (lhs : Fin 16 → Nat) (rhs : Nat) : (Fin 16 → Nat) × Nat :=
  let r := andi rhs (8 - 1)
  (fun i => vsrl8 (lhs i) r, r)

/-! ## C9: relaxed-SIMD lowerings bail out without emitting -/

/-- Bailout reasons used by the dot-product and fused-multiply lowerings. -/
inductive LiftoffBailoutReason
  | kSimd
  | kRelaxedSimd
deriving DecidableEq, Repr

/-- Outcome of one `emit_*` lowering method: the list of target instructions
it emits (as mnemonic strings) together with the bailout it signals, if
any. -/
structure EmitOutcome where
  instrs : List String
  bailoutReason : Option (LiftoffBailoutReason × String)
deriving DecidableEq, Repr

/-- Semantics of `bailout(reason, detail)`: record the bailout for the whole
function's baseline compilation; emit no instructions. -/
def bailoutOnly (reason : LiftoffBailoutReason) (detail : String) : EmitOutcome :=
  { instrs := [], bailoutReason := some (reason, detail) }

/-- Shallow embedding of `emit_i16x8_dot_i8x16_i7x16_s`: the body is exactly
`bailout(kSimd, "emit_i16x8_dot_i8x16_i7x16_s")`. -/
def emit_i16x8_dot_i8x16_i7x16_s : EmitOutcome :=
  bailoutOnly .kSimd ("emit_i16x8_dot_i8x16_i7x16_s")

/-- Shallow embedding of `emit_i32x4_dot_i8x16_i7x16_add_s`: the body is
exactly `bailout(kSimd, "emit_i32x4_dot_i8x16_i7x16_add_s")`. -/
def emit_i32x4_dot_i8x16_i7x16_add_s : EmitOutcome :=
  bailoutOnly .kSimd ("emit_i32x4_dot_i8x16_i7x16_add_s")

/-- Shallow embedding of `emit_f32x4_qfma`: the body is exactly
`bailout(kRelaxedSimd, "emit_f32x4_qfma")`. -/
def emit_f32x4_qfma : EmitOutcome :=
  bailoutOnly .kRelaxedSimd ("emit_f32x4_qfma")

/-- Shallow embedding of `emit_f32x4_qfms`: the body is exactly
`bailout(kRelaxedSimd, "emit_f32x4_qfms")`. -/
def emit_f32x4_qfms : EmitOutcome :=
  bailoutOnly .kRelaxedSimd ("emit_f32x4_qfms")

/-- Shallow embedding of `emit_f64x2_qfma`: the body is exactly
`bailout(kRelaxedSimd, "emit_f64x2_qfma")`. -/
def emit_f64x2_qfma : EmitOutcome :=
  bailoutOnly .kRelaxedSimd ("emit_f64x2_qfma")

/-- Shallow embedding of `emit_f64x2_qfms`: the body is exactly
`bailout(kRelaxedSimd, "emit_f64x2_qfms")`. -/
def emit_f64x2_qfms : EmitOutcome :=
  bailoutOnly .kRelaxedSimd ("emit_f64x2_qfms")

/-! ## C2: `PrepareTailCall` frame shift -/

/-- Machine state for the frame-shift sequence: stack pointer, frame pointer,
return-address register, and a byte-addressed word memory (every access in
`PrepareTailCall` is 8 bytes wide at an 8-byte-aligned offset, so `mem a` is
the word stored at byte address `a`). -/
structure MachineState where
  sp : Int
  fp : Int
  ra : Int
  mem : Int → Int

/-- Memory update of the word at address `a`. -/
def writeMem (m : Int → Int) (a v : Int) : Int → Int :=
  fun x => if x = a then v else m x

/-- Semantics of `Push(reg)` on RISCV64: decrement `sp` by one pointer size
and store the value there. -/
def pushWord (s : MachineState) (v : Int) : MachineState :=
  { s with
    sp := s.sp - kSystemPointerSize
    mem := writeMem s.mem (s.sp - kSystemPointerSize) v }

/-- Copy loop of `PrepareTailCall`: for `i = slot_count - 1` down to `0`,
`LoadWord(scratch, MemOperand(sp, i * kSystemPointerSize))` then
`StoreWord(scratch, MemOperand(fp, (i - stack_param_delta) *
kSystemPointerSize))`.  `tailCallShiftLoop delta k s` performs the iterations
for `i = k - 1` down to `0`, processing the highest index first exactly as the
source loop does. -/
def tailCallShiftLoop (delta : Int) : Nat → MachineState → MachineState
  | 0, s => s
  | k + 1, s =>
    tailCallShiftLoop delta k
      { s with
        mem := writeMem s.mem (s.fp + ((k : Int) - delta) * kSystemPointerSize)
          (s.mem (s.sp + (k : Int) * kSystemPointerSize)) }

/-- Shallow embedding of `LiftoffAssembler::PrepareTailCall`: push the return
address (read from `fp + 8`) and the caller frame pointer (read from `fp`),
copy the `num_callee_stack_params + 2` slots from `sp`-relative positions to
`fp`-relative positions iterating from the highest index down, set the new
stack pointer to `fp - stack_param_delta * 8`, then `Pop(ra, fp)`. -/
def PrepareTailCall (numCalleeStackParams : Nat) (stackParamDelta : Int)
    (s : MachineState) : MachineState :=
  let s1 := pushWord s (s.mem (s.fp + kSystemPointerSize))
  let s2 := pushWord s1 (s1.mem s1.fp)
  let slotCount := numCalleeStackParams + 2
  let s3 := tailCallShiftLoop stackParamDelta slotCount s2
  let s4 := { s3 with sp := s3.fp - stackParamDelta * kSystemPointerSize }
  { s4 with
    fp := s4.mem s4.sp
    ra := s4.mem (s4.sp + kSystemPointerSize)
    sp := s4.sp + 2 * kSystemPointerSize }

/-- Original (pre-shift) value of frame slot `i` as seen by `PrepareTailCall`
in state `s`: slot 0 holds the caller frame pointer read from `fp`, slot 1 the
return address read from `fp + 8`, and slot `j + 2` the `j`-th existing stack
slot at `sp + 8 * j`. -/
def tailCallSlotSrcValue (s : MachineState) : Nat → Int
  | 0 => s.mem s.fp
  | 1 => s.mem (s.fp + kSystemPointerSize)
  | j + 2 => s.mem (s.sp + kSystemPointerSize * (j : Int))

theorem tailCallShiftLoop_sp (delta : Int) (k : Nat) (s : MachineState) :
    (tailCallShiftLoop delta k s).sp = s.sp := by
  induction k generalizing s with
  | zero => rfl
  | succ k ih => simpa [tailCallShiftLoop] using ih _

theorem tailCallShiftLoop_fp (delta : Int) (k : Nat) (s : MachineState) :
    (tailCallShiftLoop delta k s).fp = s.fp := by
  induction k generalizing s with
  | zero => rfl
  | succ k ih => simpa [tailCallShiftLoop] using ih _

/-- Core invariant of the descending copy loop: when every destination slot
lies `c ≥ 0` slots above its source slot, iterating from the highest index
down writes each destination from the still-unmodified source, and leaves
every address outside the destination range untouched. -/
theorem tailCallShiftLoop_mem (delta : Int) (c : Nat) :
    ∀ (k : Nat) (s : MachineState),
      s.fp - delta * kSystemPointerSize = s.sp + kSystemPointerSize * (c : Int) →
      (∀ i : Nat, i < k →
        (tailCallShiftLoop delta k s).mem
            (s.sp + kSystemPointerSize * ((i : Int) + (c : Int))) =
          s.mem (s.sp + kSystemPointerSize * (i : Int))) ∧
      (∀ a : Int,
        (∀ i : Nat, i < k → a ≠ s.sp + kSystemPointerSize * ((i : Int) + (c : Int))) →
        (tailCallShiftLoop delta k s).mem a = s.mem a) := by
  intro k
  induction k with
  | zero =>
    intro s _
    exact ⟨fun i hi => absurd hi (Nat.not_lt_zero i), fun a _ => rfl⟩
  | succ k ih =>
    intro s hc
    have haddr : s.fp + ((k : Int) - delta) * kSystemPointerSize =
        s.sp + kSystemPointerSize * (((k : Int)) + (c : Int)) := by
      have : s.fp = s.sp + kSystemPointerSize * (c : Int) + delta * kSystemPointerSize := by
        omega
      rw [this]; ring
    set s' : MachineState :=
      { s with
        mem := writeMem s.mem (s.fp + ((k : Int) - delta) * kSystemPointerSize)
          (s.mem (s.sp + (k : Int) * kSystemPointerSize)) } with hs'
    have hstep : tailCallShiftLoop delta (k + 1) s = tailCallShiftLoop delta k s' := rfl
    have hc' : s'.fp - delta * kSystemPointerSize =
        s'.sp + kSystemPointerSize * (c : Int) := hc
    obtain ⟨ihcopy, ihframe⟩ := ih s' hc'
    have hinj : ∀ x y : Int, (s.sp + kSystemPointerSize * x = s.sp + kSystemPointerSize * y) ↔ x = y := by
      intro x y
      constructor
      · intro h
        have h8 : kSystemPointerSize = (8 : Int) := rfl
        rw [h8] at h
        omega
      · intro h; rw [h]
    constructor
    · intro i hi
      rcases Nat.lt_succ_iff_lt_or_eq.mp hi with hik | hik
      · -- already-copied slots keep their value: the write at index k does not
        -- touch source slot i since i < k ≤ k + c
        rw [hstep]
        have := ihcopy i hik
        rw [this]
        show writeMem s.mem _ _ _ = _
        unfold writeMem
        rw [haddr]
        have hne : s.sp + kSystemPointerSize * (i : Int) ≠
            s.sp + kSystemPointerSize * ((k : Int) + (c : Int)) := by
          rw [Ne, hinj]
          omega
        simp [hne]
      · -- the slot written at index k reads the original source value
        subst hik
        rw [hstep]
        have hfree : ∀ j : Nat, j < i →
            s.sp + kSystemPointerSize * ((i : Int) + (c : Int)) ≠
              s'.sp + kSystemPointerSize * ((j : Int) + (c : Int)) := by
          intro j hj
          show s.sp + _ ≠ s.sp + _
          rw [Ne, hinj]
          omega
        have := ihframe _ hfree
        rw [this]
        show writeMem s.mem _ _ _ = _
        unfold writeMem
        rw [haddr]
        simp [mul_comm]
    · intro a ha
      rw [hstep]
      have hfree : ∀ j : Nat, j < k →
          a ≠ s'.sp + kSystemPointerSize * ((j : Int) + (c : Int)) := by
        intro j hj
        exact ha j (Nat.lt_succ_of_lt hj)
      have := ihframe a hfree
      rw [this]
      show writeMem s.mem _ _ _ = _
      unfold writeMem
      rw [haddr]
      have hne : a ≠ s.sp + kSystemPointerSize * ((k : Int) + (c : Int)) :=
        ha k (Nat.lt_succ_self k)
      simp [hne]

theorem writeMem_hit (m : Int → Int) (a v : Int) : writeMem m a v a = v := by
  simp [writeMem]

theorem writeMem_miss (m : Int → Int) (a v x : Int) (h : x ≠ a) :
    writeMem m a v x = m x := by
  simp [writeMem, h]

/-! ## C3: `PushRegisters` / `PopRegisters` stack-pointer balance -/

/-- One instruction of the bulk register save/restore sequences; only
`AddWord(sp, sp, imm)` moves the stack pointer, the stores and loads address
memory relative to `sp` without changing it. -/
inductive SaveRestoreInstr
  | addWordSp (imm : Int)
  | storeWord (code : Nat) (offset : Int)
  | storeDouble (code : Nat) (offset : Int)
  | loadWord (code : Nat) (offset : Int)
  | loadDouble (code : Nat) (offset : Int)
deriving DecidableEq, Repr

/-- Register set `LiftoffRegList`, split into its general-purpose part
(`regs & kGpCacheRegList`) and its floating-point part
(`regs & kFpCacheRegList`), each as the list of register codes in the order
the `GetFirstRegSet` / `clear` loop walks them (ascending codes). -/
structure LiftoffRegList where
  gp : List Nat
  fp : List Nat
deriving DecidableEq, Repr

/-- Store loop of `PushRegisters` over the general-purpose subset: `offset`
starts at `num_gp_regs * kSystemPointerSize` and is decremented by
`kSystemPointerSize` before each `StoreWord(reg, MemOperand(sp, offset))`. -/
def pushGpLoop : List Nat → Int → List SaveRestoreInstr
  | [], _ => []
  | r :: rest, offset =>
    SaveRestoreInstr.storeWord r (offset - kSystemPointerSize) ::
      pushGpLoop rest (offset - kSystemPointerSize)

/-- Store loop of `PushRegisters` over the floating-point subset: `offset`
starts at 0 and is incremented by `sizeof(double)` (8) after each
`StoreDouble(reg, MemOperand(sp, offset))`. -/
def pushFpLoop : List Nat → Int → List SaveRestoreInstr
  | [], _ => []
  | r :: rest, offset =>
    SaveRestoreInstr.storeDouble r offset :: pushFpLoop rest (offset + 8)

/-- Shallow embedding of `LiftoffAssembler::PushRegisters` (RISCV64:
`kStackSlotSize = 8`): one bulk `AddWord(sp, sp, -size)` per nonempty subset,
followed by the individual stores. -/
def PushRegisters (regs : LiftoffRegList) : List SaveRestoreInstr :=
  (if regs.gp.length ≠ 0 then
    SaveRestoreInstr.addWordSp (-((regs.gp.length : Int) * kSystemPointerSize)) ::
      pushGpLoop regs.gp ((regs.gp.length : Int) * kSystemPointerSize)
  else []) ++
  (if regs.fp.length ≠ 0 then
    SaveRestoreInstr.addWordSp (-((regs.fp.length : Int) * 8)) ::
      pushFpLoop regs.fp 0
  else [])

/-- Load loop of `PopRegisters` over the floating-point subset: `fp_offset`
starts at 0 and is incremented by `sizeof(double)` after each load. -/
def popFpLoop : List Nat → Int → List SaveRestoreInstr
  | [], _ => []
  | r :: rest, offset =>
    SaveRestoreInstr.loadDouble r offset :: popFpLoop rest (offset + 8)

/-- Load loop of `PopRegisters` over the general-purpose subset: `gp_offset`
starts at 0 and is incremented by `kSystemPointerSize` after each load (the
registers are walked with `GetLastRegSet`, hence in descending order). -/
def popGpLoop : List Nat → Int → List SaveRestoreInstr
  | [], _ => []
  | r :: rest, offset =>
    SaveRestoreInstr.loadWord r offset :: popGpLoop rest (offset + kSystemPointerSize)

/-- Shallow embedding of `LiftoffAssembler::PopRegisters`: the fp loads, then
`AddWord(sp, sp, fp_offset)` only if `fp_offset` is nonzero, then the gp loads
(in `GetLastRegSet` order), then an unconditional `AddWord(sp, sp, gp_offset)`
with the final `gp_offset` (which is 0 when the gp subset is empty). -/
def PopRegisters (regs : LiftoffRegList) : List SaveRestoreInstr :=
  popFpLoop regs.fp 0 ++
  (if ((regs.fp.length : Int) * 8) ≠ 0 then
    [SaveRestoreInstr.addWordSp ((regs.fp.length : Int) * 8)]
  else []) ++
  popGpLoop regs.gp.reverse 0 ++
  [SaveRestoreInstr.addWordSp ((regs.gp.length : Int) * kSystemPointerSize)]

/-- Net stack-pointer displacement of an emitted sequence: the sum of the
`AddWord(sp, sp, imm)` immediates. -/
def spDelta : List SaveRestoreInstr → Int
  | [] => 0
  | SaveRestoreInstr.addWordSp imm :: rest => imm + spDelta rest
  | SaveRestoreInstr.storeWord _ _ :: rest => spDelta rest
  | SaveRestoreInstr.storeDouble _ _ :: rest => spDelta rest
  | SaveRestoreInstr.loadWord _ _ :: rest => spDelta rest
  | SaveRestoreInstr.loadDouble _ _ :: rest => spDelta rest

theorem spDelta_append (l1 l2 : List SaveRestoreInstr) :
    spDelta (l1 ++ l2) = spDelta l1 + spDelta l2 := by
  induction l1 with
  | nil => simp [spDelta]
  | cons a rest ih => cases a <;> simp [spDelta, ih, add_assoc]

theorem spDelta_pushGpLoop (l : List Nat) (o : Int) : spDelta (pushGpLoop l o) = 0 := by
  induction l generalizing o with
  | nil => simp [pushGpLoop, spDelta]
  | cons a rest ih => simp [pushGpLoop, spDelta, ih]

theorem spDelta_pushFpLoop (l : List Nat) (o : Int) : spDelta (pushFpLoop l o) = 0 := by
  induction l generalizing o with
  | nil => simp [pushFpLoop, spDelta]
  | cons a rest ih => simp [pushFpLoop, spDelta, ih]

theorem spDelta_popGpLoop (l : List Nat) (o : Int) : spDelta (popGpLoop l o) = 0 := by
  induction l generalizing o with
  | nil => simp [popGpLoop, spDelta]
  | cons a rest ih => simp [popGpLoop, spDelta, ih]

theorem spDelta_popFpLoop (l : List Nat) (o : Int) : spDelta (popFpLoop l o) = 0 := by
  induction l generalizing o with
  | nil => simp [popFpLoop, spDelta]
  | cons a rest ih => simp [popFpLoop, spDelta, ih]

/-! ## Theorems -/

/-- C1: for every function whose computed frame size (total frame size minus
the two pointer-sized slots already pushed during frame construction) is
strictly below 4 KiB, `PatchPrepareStackFrame` patches the placeholder with a
single direct stack-pointer decrement by the frame size; at or above 4 KiB it
patches in the jump to the out-of-line stack-checking code instead — in
particular a frame size of exactly 4 KiB takes the large-frame path. -/
theorem patchPrepareStackFrame_threshold (total flag : Int) :
    (total - 2 * kSystemPointerSize < 4 * KB →
      PatchPrepareStackFrame total flag =
        ProloguePatch.smallFrame (total - 2 * kSystemPointerSize)) ∧
    (4 * KB ≤ total - 2 * kSystemPointerSize →
      PatchPrepareStackFrame total flag =
        ProloguePatch.largeFrame
          (decide (total - 2 * kSystemPointerSize < flag * 1024))
          (total - 2 * kSystemPointerSize)) ∧
    PatchPrepareStackFrame (4 * KB + 2 * kSystemPointerSize) flag =
      ProloguePatch.largeFrame (decide (4 * KB < flag * 1024)) (4 * KB) := by
  refine ⟨fun h => ?_, fun h => ?_, ?_⟩
  · simp only [PatchPrepareStackFrame, if_pos h]
  · simp only [PatchPrepareStackFrame, if_neg (not_lt.mpr h)]
  · have h4 : ¬ (4 * KB + 2 * kSystemPointerSize - 2 * kSystemPointerSize < 4 * KB) := by
      simp [KB, kSystemPointerSize]
    simp only [PatchPrepareStackFrame, if_neg h4]
    norm_num

/-- Witness for C1 at concrete frame sizes: a total frame size of 116 bytes
(frame size 100) is patched as a direct decrement, and a total of 4112 bytes
(frame size exactly 4 KiB) takes the large-frame path with a stack check under
the default 984-KiB stack-size flag. -/
theorem patchPrepareStackFrame_threshold_witness :
    PatchPrepareStackFrame 116 984 = ProloguePatch.smallFrame 100 ∧
    PatchPrepareStackFrame 4112 984 = ProloguePatch.largeFrame true 4096 := by
  constructor
  · have h := (patchPrepareStackFrame_threshold 116 984).1 (by decide)
    simpa [kSystemPointerSize] using h
  · have h := (patchPrepareStackFrame_threshold 4112 984).2.1 (by decide)
    simpa [kSystemPointerSize] using h

/-- C2: `PrepareTailCall` first pushes the return address and the caller
frame pointer, then copies the `N + 2` slots from their source positions to
their destination positions iterating from the highest slot index down to the
lowest; whenever the destination range sits at or above the (overlapping)
source range — expressed by the existence of the nonnegative slot distance
`c` — every destination slot of the final stack contents equals the original
(pre-shift) value of its source slot: no slot is corrupted by an earlier
overlapping write. -/
theorem prepareTailCall_no_corruption
    (N : Nat) (delta : Int) (s : MachineState)
    (hsp : s.sp ≤ s.fp)
    (hc : ∃ c : Nat, s.fp - delta * kSystemPointerSize =
      s.sp - 2 * kSystemPointerSize + kSystemPointerSize * (c : Int)) :
    ∀ i : Nat, i < N + 2 →
      (PrepareTailCall N delta s).mem
          (s.fp + ((i : Int) - delta) * kSystemPointerSize) =
        tailCallSlotSrcValue s i := by
  obtain ⟨c, hc⟩ := hc
  have hk8 : kSystemPointerSize = (8 : Int) := rfl
  intro i hi
  have hrun : (PrepareTailCall N delta s).mem =
      (tailCallShiftLoop delta (N + 2)
        (pushWord (pushWord s (s.mem (s.fp + kSystemPointerSize)))
          ((pushWord s (s.mem (s.fp + kSystemPointerSize))).mem
            (pushWord s (s.mem (s.fp + kSystemPointerSize))).fp))).mem := rfl
  rw [hrun]
  set S2 := pushWord (pushWord s (s.mem (s.fp + kSystemPointerSize)))
      ((pushWord s (s.mem (s.fp + kSystemPointerSize))).mem
        (pushWord s (s.mem (s.fp + kSystemPointerSize))).fp) with hS2
  have hS2sp : S2.sp = s.sp - kSystemPointerSize - kSystemPointerSize := rfl
  have hS2fp : S2.fp = s.fp := rfl
  have hc2 : S2.fp - delta * kSystemPointerSize =
      S2.sp + kSystemPointerSize * (c : Int) := by
    rw [hS2sp, hS2fp, hk8]
    rw [hk8] at hc
    linear_combination hc
  obtain ⟨hcopy, _⟩ := tailCallShiftLoop_mem delta c (N + 2) S2 hc2
  have haddr : s.fp + ((i : Int) - delta) * kSystemPointerSize =
      S2.sp + kSystemPointerSize * ((i : Int) + (c : Int)) := by
    rw [hS2sp, hk8]
    rw [hk8] at hc
    linear_combination hc
  rw [haddr, hcopy i hi]
  have hS2mem : S2.mem =
      writeMem (writeMem s.mem (s.sp - kSystemPointerSize)
          (s.mem (s.fp + kSystemPointerSize)))
        (s.sp - kSystemPointerSize - kSystemPointerSize)
        (writeMem s.mem (s.sp - kSystemPointerSize)
          (s.mem (s.fp + kSystemPointerSize)) s.fp) := rfl
  rw [hS2mem, hS2sp]
  rw [hk8]
  have hne_fp : s.fp ≠ s.sp - 8 := by omega
  rcases i with _ | i
  · -- slot 0: the caller frame pointer pushed second
    have e0 : s.sp - 8 - 8 + 8 * (((0 : Nat) : Int)) = s.sp - 8 - 8 := by
      push_cast
      ring
    rw [e0, writeMem_hit, writeMem_miss _ _ _ _ hne_fp]
    rfl
  rcases i with _ | j
  · -- slot 1: the return address pushed first
    have hne_c : s.sp - 8 ≠ s.sp - 8 - 8 := by omega
    have e1 : s.sp - 8 - 8 + 8 * (((1 : Nat) : Int)) = s.sp - 8 := by
      push_cast
      ring
    rw [e1, writeMem_miss _ _ _ _ hne_c, writeMem_hit]
    rfl
  · -- slot j + 2: the existing stack slots
    have e2 : s.sp - 8 - 8 + 8 * (((j + 2 : Nat) : Int)) = s.sp + 8 * (j : Int) := by
      push_cast
      ring
    have hne_a : s.sp + 8 * (j : Int) ≠ s.sp - 8 - 8 := by omega
    have hne_b : s.sp + 8 * (j : Int) ≠ s.sp - 8 := by omega
    rw [e2, writeMem_miss _ _ _ _ hne_a, writeMem_miss _ _ _ _ hne_b]
    rfl

/-- Witness for C2: with `sp = 0`, `fp = 16`, `delta = 0`, one callee stack
parameter and the identity-labelled memory, all three shifted slots receive
their original values. -/
theorem prepareTailCall_no_corruption_witness :
    ((⟨0, 16, 0, fun a => a⟩ : MachineState).sp ≤
        (⟨0, 16, 0, fun a => a⟩ : MachineState).fp) ∧
    (PrepareTailCall 1 0 ⟨0, 16, 0, fun a => a⟩).mem
        ((16 : Int) + (((0 : Nat) : Int) - 0) * kSystemPointerSize) =
      tailCallSlotSrcValue ⟨0, 16, 0, fun a => a⟩ 0 ∧
    (PrepareTailCall 1 0 ⟨0, 16, 0, fun a => a⟩).mem
        ((16 : Int) + (((1 : Nat) : Int) - 0) * kSystemPointerSize) =
      tailCallSlotSrcValue ⟨0, 16, 0, fun a => a⟩ 1 ∧
    (PrepareTailCall 1 0 ⟨0, 16, 0, fun a => a⟩).mem
        ((16 : Int) + (((2 : Nat) : Int) - 0) * kSystemPointerSize) =
      tailCallSlotSrcValue ⟨0, 16, 0, fun a => a⟩ 2 := by
  have h := prepareTailCall_no_corruption 1 0 ⟨0, 16, 0, fun a => a⟩
    (by norm_num) ⟨4, by norm_num [kSystemPointerSize]⟩
  exact ⟨by norm_num, h 0 (by norm_num), h 1 (by norm_num), h 2 (by norm_num)⟩

/-- C3: for every register set (any mix of general-purpose and floating-point
registers, either subset possibly empty), the total stack-pointer displacement
of the sequence emitted by `PushRegisters` is the exact negative of the total
stack-pointer displacement of the sequence emitted by `PopRegisters` on the
same set, so the frame stays balanced across a save/restore pair. -/
theorem pushRegisters_popRegisters_sp_balance (regs : LiftoffRegList) :
    spDelta (PushRegisters regs) = - spDelta (PopRegisters regs) := by
  unfold PushRegisters PopRegisters
  rcases eq_or_ne regs.gp.length 0 with hg | hg <;>
    rcases eq_or_ne regs.fp.length 0 with hf | hf <;>
      have hf8 : ((regs.fp.length : Int) * 8 = 0) ↔ regs.fp.length = 0 := by
        constructor
        · intro h
          have := mul_eq_zero.mp h
          omega
        · intro h
          rw [h]
          simp
  all_goals
    simp [hg, hf, hf8, spDelta_append, spDelta, spDelta_pushGpLoop,
      spDelta_pushFpLoop, spDelta_popGpLoop, spDelta_popFpLoop]

/-- C4: for every pair of 128-bit vectors of 32-bit float lanes, the sequences
emitted by `emit_f32x4_min` and `emit_f32x4_max` produce, in every lane where
at least one operand lane is NaN, the canonical quiet-NaN bit pattern
`0x7FC00000` regardless of operand order; in lanes where neither operand is
NaN they produce the IEEE minimum respectively maximum of the two lanes. -/
theorem emit_f32x4_min_max_nan_semantics
    (lhs rhs : Fin 4 → Nat)
    (hl : ∀ i, lhs i < 2 ^ 32) (hr : ∀ i, rhs i < 2 ^ 32) (i : Fin 4) :
    ((isNaN32 (lhs i) = true ∨ isNaN32 (rhs i) = true) →
      emit_f32x4_min lhs rhs i = 0x7FC00000 ∧
      emit_f32x4_max lhs rhs i = 0x7FC00000) ∧
    (isNaN32 (lhs i) = false → isNaN32 (rhs i) = false →
      emit_f32x4_min lhs rhs i = ieeeMin32 (lhs i) (rhs i) ∧
      emit_f32x4_max lhs rhs i = ieeeMax32 (lhs i) (rhs i)) := by
  constructor
  · intro hnan
    have hmask : ¬ (vmfeq32 (lhs i) (lhs i) &&& vmfeq32 (rhs i) (rhs i) = 1) := by
      rw [vmfeq32_self, vmfeq32_self]
      rcases hnan with h | h <;> simp [h]
    constructor
    · simp only [emit_f32x4_min, if_neg hmask]
      rfl
    · simp only [emit_f32x4_max, if_neg hmask]
      rfl
  · intro hln hrn
    have hmask : vmfeq32 (lhs i) (lhs i) &&& vmfeq32 (rhs i) (rhs i) = 1 := by
      rw [vmfeq32_self, vmfeq32_self, hln, hrn]
      rfl
    constructor
    · simp only [emit_f32x4_min, if_pos hmask]
      exact vfmin32_eq_ieeeMin32 hln hrn (hl i) (hr i)
    · simp only [emit_f32x4_max, if_pos hmask]
      exact vfmax32_eq_ieeeMax32 hln hrn (hl i) (hr i)

/-- Witness for C4 at concrete lanes: lane 0 has a NaN on the left, lane 1 a
NaN on the right (both min and max produce the canonical NaN), lane 2 compares
`-0.0` with `+0.0` (the IEEE minimum is `-0.0`), lane 3 holds ordinary
values. -/
theorem emit_f32x4_min_max_nan_semantics_witness :
    emit_f32x4_min wF32Lhs wF32Rhs 0 = 0x7FC00000 ∧
    emit_f32x4_max wF32Lhs wF32Rhs 1 = 0x7FC00000 ∧
    emit_f32x4_min wF32Lhs wF32Rhs 2 = ieeeMin32 (wF32Lhs 2) (wF32Rhs 2) ∧
    emit_f32x4_max wF32Lhs wF32Rhs 3 = ieeeMax32 (wF32Lhs 3) (wF32Rhs 3) := by
  refine ⟨((emit_f32x4_min_max_nan_semantics wF32Lhs wF32Rhs ?_ ?_ 0).1 ?_).1,
    ((emit_f32x4_min_max_nan_semantics wF32Lhs wF32Rhs ?_ ?_ 1).1 ?_).2,
    ((emit_f32x4_min_max_nan_semantics wF32Lhs wF32Rhs ?_ ?_ 2).2 ?_ ?_).1,
    ((emit_f32x4_min_max_nan_semantics wF32Lhs wF32Rhs ?_ ?_ 3).2 ?_ ?_).2⟩ <;>
  decide

/-- C5: for every pair of unsigned lane values `(a, b)` in every lane, the
sequences emitted by `emit_i8x16_rounding_average_u` (8-bit lanes) and
`emit_i16x8_rounding_average_u` (16-bit lanes) produce exactly
`⌊(a + b + 1) / 2⌋` in that lane, with no intermediate overflow — in
particular `(0, 0) ↦ 0` and `(max, max) ↦ max`. -/
theorem rounding_average_u_correct
    (a8 b8 : Fin 16 → Nat) (h8 : ∀ i, a8 i < 2 ^ 8 ∧ b8 i < 2 ^ 8)
    (a16 b16 : Fin 8 → Nat) (h16 : ∀ i, a16 i < 2 ^ 16 ∧ b16 i < 2 ^ 16) :
    (∀ i, emit_i8x16_rounding_average_u a8 b8 i = (a8 i + b8 i + 1) / 2) ∧
    (∀ i, emit_i16x8_rounding_average_u a16 b16 i = (a16 i + b16 i + 1) / 2) := by
  constructor
  · intro i
    obtain ⟨ha, hb⟩ := h8 i
    simp only [emit_i8x16_rounding_average_u, vwaddu_vv8, vwaddu_wx8, vdivu16,
      vnclipu16to8]
    norm_num
    omega
  · intro i
    obtain ⟨ha, hb⟩ := h16 i
    simp only [emit_i16x8_rounding_average_u, vwaddu_vv16, vwaddu_wx16,
      vdivu32, vnclipu32to16]
    norm_num
    omega

/-- Witness for C5 at the boundary values: `(0, 0)` yields 0 and
`(max, max)` yields `max` at both lane widths. -/
theorem rounding_average_u_correct_witness :
    emit_i8x16_rounding_average_u (fun _ => 0) (fun _ => 0) 0 = 0 ∧
    emit_i8x16_rounding_average_u (fun _ => 255) (fun _ => 255) 0 = 255 ∧
    emit_i16x8_rounding_average_u (fun _ => 0) (fun _ => 0) 0 = 0 ∧
    emit_i16x8_rounding_average_u (fun _ => 65535) (fun _ => 65535) 0 = 65535 := by
  refine ⟨?_, ?_, ?_, ?_⟩
  · exact (rounding_average_u_correct (fun _ => 0) (fun _ => 0) (by decide)
      (fun _ => 0) (fun _ => 0) (by decide)).1 0
  · exact (rounding_average_u_correct (fun _ => 255) (fun _ => 255) (by decide)
      (fun _ => 0) (fun _ => 0) (by decide)).1 0
  · exact (rounding_average_u_correct (fun _ => 0) (fun _ => 0) (by decide)
      (fun _ => 0) (fun _ => 0) (by decide)).2 0
  · exact (rounding_average_u_correct (fun _ => 0) (fun _ => 0) (by decide)
      (fun _ => 65535) (fun _ => 65535) (by decide)).2 0

/-- C6: `ConditionToConditionCmpFPU` returns a target condition code for
exactly the six comparison kinds equal, not-equal, unsigned-less-than,
unsigned-less-or-equal, unsigned-greater-than and unsigned-greater-or-equal;
for the four signed orderings (and only those) it reaches the fatal
`UNREACHABLE()` branch, so under the precondition that the input is one of the
six supported kinds that branch is never taken. -/
theorem conditionToConditionCmpFPU_supported (c : LiftoffCondition) :
    ((ConditionToConditionCmpFPU c).isSome ↔
      (c = .kEqual ∨ c = .kUnequal ∨ c = .kUnsignedLessThan ∨
        c = .kUnsignedLessEqual ∨ c = .kUnsignedGreaterThan ∨
        c = .kUnsignedGreaterEqual)) ∧
    (ConditionToConditionCmpFPU c = none ↔
      (c = .kSignedLessThan ∨ c = .kSignedLessEqual ∨
        c = .kSignedGreaterThan ∨ c = .kSignedGreaterEqual)) := by
  cases c <;> simp [ConditionToConditionCmpFPU]

/-- C7 (evaluation at the failing inputs): `emit_i8x16_splat` and
`emit_i8x16_popcnt` write the vector configuration before their first vector
instruction, but `emit_s128_set_if_nan` and `emit_i32x4_shli` emit their first
vector instruction with no configuration write at all — the claimed
discipline does not hold for every vector-emitting method. -/
theorem vector_config_discipline_violated :
    setsVectorConfigBeforeFirstVectorInstr emit_i8x16_splat_trace = true ∧
    setsVectorConfigBeforeFirstVectorInstr emit_i8x16_popcnt_trace = true ∧
    setsVectorConfigBeforeFirstVectorInstr emit_s128_set_if_nan_trace_f32 = false ∧
    setsVectorConfigBeforeFirstVectorInstr emit_i32x4_shli_trace_uint5 = false :=
  ⟨rfl, rfl, rfl, rfl⟩

/-- Concrete vector used by the C8 witness. -/
def wLanes4 : Fin 4 → Nat := ![10, 20, 30, 40]

/-- C8: for every vector of 32-bit lanes, every in-range lane index and every
scalar value below `2 ^ 32`, the sequence emitted by
`emit_i32x4_replace_lane` writes the scalar into lane `idx` — so a subsequent
`emit_i32x4_extract_lane` of lane `idx` yields it — and leaves every other
lane bit-identical to its value before the replace. -/
theorem replace_then_extract_lane (src1 : Fin 4 → Nat) (src2 : Nat)
    (idx : Fin 4) (h : src2 < 2 ^ 32) :
    emit_i32x4_extract_lane (emit_i32x4_replace_lane src1 src2 idx) idx = src2 ∧
    ∀ j : Fin 4, j ≠ idx → emit_i32x4_replace_lane src1 src2 idx j = src1 j := by
  have hbit : ∀ k j : Fin 4, (((1 <<< k.val) >>> j.val) &&& 1 = 1) ↔ k = j := by
    decide
  constructor
  · have hyes : ((1 <<< idx.val) >>> idx.val) &&& 1 = 1 := (hbit idx idx).mpr rfl
    have hcond : (0 : Fin 4).val + idx.val < 4 := by
      have hlt := idx.isLt
      show 0 + idx.val < 4
      omega
    simp only [emit_i32x4_extract_lane, vslidedown4, dif_pos hcond]
    have hix : (⟨(0 : Fin 4).val + idx.val, hcond⟩ : Fin 4) = idx := by
      ext
      show 0 + idx.val = idx.val
      omega
    rw [hix]
    simp only [emit_i32x4_replace_lane, if_pos hyes]
    exact Nat.mod_eq_of_lt h
  · intro j hj
    have hne : ¬ (((1 <<< idx.val) >>> j.val) &&& 1 = 1) := by
      rw [hbit]
      exact fun hh => hj hh.symm
    simp only [emit_i32x4_replace_lane, if_neg hne]

/-- Witness for C8: replacing lane 2 of `(10, 20, 30, 40)` with 77 and
extracting lane 2 yields 77, while lane 0 is unchanged. -/
theorem replace_then_extract_lane_witness :
    emit_i32x4_extract_lane (emit_i32x4_replace_lane wLanes4 77 2) 2 = 77 ∧
    emit_i32x4_replace_lane wLanes4 77 2 0 = wLanes4 0 := by
  have h := replace_then_extract_lane wLanes4 77 2 (by norm_num)
  exact ⟨h.1, h.2 0 (by decide)⟩

/-- C10: for each register-operand vector shift on 8-bit lanes
(`emit_i8x16_shl`, `emit_i8x16_shr_s`, `emit_i8x16_shr_u`) and every scalar
shift count, the emitted sequence first masks the count to its low 3 bits —
overwriting the caller's count register in place with `count % 8` — so the
effective per-lane shift amount is always the count modulo the lane
width 8. -/
theorem i8x16_register_shifts_mask_count (lhs : Fin 16 → Nat) (c : Nat) :
    ((emit_i8x16_shl lhs c).2 = c % 8 ∧
      ∀ i, (emit_i8x16_shl lhs c).1 i = vsll8 (lhs i) (c % 8)) ∧
    ((emit_i8x16_shr_s lhs c).2 = c % 8 ∧
      ∀ i, (emit_i8x16_shr_s lhs c).1 i = vsra8 (lhs i) (c % 8)) ∧
    ((emit_i8x16_shr_u lhs c).2 = c % 8 ∧
      ∀ i, (emit_i8x16_shr_u lhs c).1 i = vsrl8 (lhs i) (c % 8)) := by
  have hmask : c &&& 7 = c % 8 := by
    have h := Nat.and_pow_two_sub_one_eq_mod c 3
    simpa using h
  refine ⟨⟨?_, fun i => ?_⟩, ⟨?_, fun i => ?_⟩, ⟨?_, fun i => ?_⟩⟩ <;>
    simp [emit_i8x16_shl, emit_i8x16_shr_s, emit_i8x16_shr_u, andi, hmask]

/-- C9: each of the six relaxed-SIMD dot-product and fused-multiply lowerings
emits no target instructions and signals abandonment of the whole function's
baseline compilation via the explicit bailout call. -/
theorem relaxed_simd_lowerings_bailout_without_emission :
    (emit_i16x8_dot_i8x16_i7x16_s.instrs = [] ∧
      emit_i16x8_dot_i8x16_i7x16_s.bailoutReason.isSome = true) ∧
    (emit_i32x4_dot_i8x16_i7x16_add_s.instrs = [] ∧
      emit_i32x4_dot_i8x16_i7x16_add_s.bailoutReason.isSome = true) ∧
    (emit_f32x4_qfma.instrs = [] ∧ emit_f32x4_qfma.bailoutReason.isSome = true) ∧
    (emit_f32x4_qfms.instrs = [] ∧ emit_f32x4_qfms.bailoutReason.isSome = true) ∧
    (emit_f64x2_qfma.instrs = [] ∧ emit_f64x2_qfma.bailoutReason.isSome = true) ∧
    (emit_f64x2_qfms.instrs = [] ∧ emit_f64x2_qfms.bailoutReason.isSome = true) :=
  ⟨⟨rfl, rfl⟩, ⟨rfl, rfl⟩, ⟨rfl, rfl⟩, ⟨rfl, rfl⟩, ⟨rfl, rfl⟩, ⟨rfl, rfl⟩⟩

end Liftoff
